import Mathlib

/-!
Verification of the CLAM/CAKES core against its natural-language
specification.  Rust code is shallowly embedded: distance values are
modelled as rationals (or as an arbitrary linearly ordered commutative
ring where the Rust code is generic), `f64` quantities that feed into
logarithms are modelled as real numbers, and fallible or panicking code
is modelled with `Option` / an explicit panic outcome.
-/

set_option maxHeartbeats 1000000

namespace ClamSpec

/-! ## LFD estimators (clam/src/helpers.rs and src/src/utils/helpers.rs) -/

/-- The two-argument local-fractal-dimension estimate from
clam/src/helpers.rs, `compute_lfd(distances, radius)`: when the radius is
zero the result is 1; otherwise count the distances that are at most half
the radius and return `log2(n / half_count)` when that count is positive,
else 1. -/
noncomputable def compute_lfd (distances : List ℚ) (radius : ℚ) : ℝ :=
  if radius = 0 then 1
  else
    let half_count := (distances.filter (fun d => decide (d ≤ radius / 2))).length
    if 0 < half_count then Real.logb 2 ((distances.length : ℝ) / (half_count : ℝ))
    else 1

/-- The one-argument local-fractal-dimension estimate from
src/src/utils/helpers.rs, `compute_lfd(points)`.  Negative inputs are
clamped to zero and the list is stably sorted; the reference scale is the
last (largest) element.  A `none` result models a run that does not
produce a finite value in Rust: the `unwrap` of the last element panics
on an empty list, and the mean of an empty per-point list is `0.0/0.0`,
i.e. NaN. -/
noncomputable def compute_lfd_points (points0 : List ℚ) : Option ℝ :=
  let points := (points0.map (fun d => if d < 0 then 0 else d)).insertionSort (· ≤ ·)
  match points.getLast? with
  | none => none
  | some r =>
    if r = 0 then some 1
    else
      let n := points.length
      let lfds := (points.enum.filter (fun p => decide (p.2 < r))).map (fun p =>
        if p.2 = 0 ∨ p.2 = r then (1 : ℝ)
        else Real.logb 2 (((p.1 : ℝ) + 1) / (n : ℝ)) / Real.logb 2 ((p.2 : ℝ) / (r : ℝ)))
      if lfds.length = 0 then none
      else some (lfds.sum / (lfds.length : ℝ))

/-- The per-iteration radius multiplier of `CAKES::knn_by_rnn`
(src/src/search/cakes.rs, lines 245-261): factor 2 when there are no
hits, otherwise `(k / hits.len())^(1 / lfd)` where `lfd` is the
one-argument estimate of the hit distances; the code asserts the factor
is strictly greater than 1 (modelled as a `none` result when the assert
fails or the lfd is NaN) and then caps the factor at 2. -/
noncomputable def knn_by_rnn_factor (k : ℕ) (hits : List (ℕ × ℚ)) : Option ℝ :=
  if hits.length = 0 then some 2
  else
    match compute_lfd_points (hits.map Prod.snd) with
    | none => none
    | some lfd =>
      let factor := ((k : ℝ) / (hits.length : ℝ)) ^ ((1 : ℝ) / lfd)
      if 1 < factor then some (if 2 < factor then 2 else factor) else none

/-- The multiplier asserted by the claim for the adaptive KNN loop:
`(k / max(number_of_hits, 1))^(1/lfd)`, capped at 2. -/
noncomputable def claimed_knn_factor (k numHits : ℕ) (lfd : ℝ) : ℝ :=
  min 2 (((k : ℝ) / (max numHits 1 : ℕ)) ^ ((1 : ℝ) / lfd))

/-! ## Initial guess radius for the adaptive KNN search (C4) -/

/-- The `base_knn_radius` field computed by `CAKES::new`
(src/src/search/cakes.rs, lines 21-22): the root radius divided by 1000
when the cardinality is at least one million and by 100 otherwise, plus
`1e-6`. -/
def base_knn_radius (rootRadius : ℚ) (cardinality : ℕ) : ℚ :=
  let factor : ℚ := if 1000000 ≤ cardinality then 1000 else 100
  rootRadius / factor + 1 / 1000000

/-- The initial guess radius asserted by the claim:
`max(radius(root) / f, epsilon)` with `epsilon = 1e-6` (the only epsilon
appearing in the code). -/
def claimed_base_knn_radius (rootRadius : ℚ) (cardinality : ℕ) : ℚ :=
  let factor : ℚ := if 1000000 ≤ cardinality then 1000 else 100
  max (rootRadius / factor) (1 / 1000000)

/-! ## Panicking argument checks (C9) -/

/-- Outcome of a Rust call that may panic: either the process aborts
(`panicked`, from a failed `assert!`) or a value is returned.  There is
no recoverable-error constructor because the modelled functions have no
error type in their signatures. -/
inductive Outcome (α : Type) where
  | panicked : Outcome α
  | ok : α → Outcome α
deriving DecidableEq

/-- The argument check of `Cluster::new_root` (src/src/core/cluster.rs,
lines 103-107): `assert!(!indices.is_empty())` panics on an empty
dataset, otherwise construction proceeds with the index list. -/
def new_root_check (indices : List ℕ) : Outcome (List ℕ) :=
  if indices.isEmpty then Outcome.panicked else Outcome.ok indices

/-- The argument check of `CAKES::knn_by_rnn` (src/src/search/cakes.rs,
line 240): `assert!(k > 0)` panics when `k = 0`, otherwise the search
proceeds. -/
def knn_by_rnn_check (k : ℕ) : Outcome ℕ :=
  if k = 0 then Outcome.panicked else Outcome.ok k

/-! ## The Space distance front-end with its cache (C10) -/

/-- A `Space` as in clam/src/space.rs: a metric function over instance
indices, a flag saying whether a distance cache is used, and the cache
contents (keyed by ordered index pairs). -/
structure SpaceModel where
  metric : ℕ → ℕ → ℚ
  usesCache : Bool
  cache : ℕ × ℕ → Option ℚ

/-- Result of `Space::one_to_one`, instrumented with the number of metric
invocations and the number of cache operations (lookups and insertions)
that the call performed. -/
structure OneToOneResult where
  value : ℚ
  after : SpaceModel
  metricCalls : ℕ
  cacheOps : ℕ

/-- The ordered cache key from `Space::cache_key`. -/
def cache_key (i j : ℕ) : ℕ × ℕ :=
  if i < j then (i, j) else (j, i)

/-- `Space::one_to_one` from clam/src/space.rs (lines 124-138): a zero
short-circuit for equal indices, then the cache lookup-or-compute path
when a cache is used, else a direct metric call.  Metric invocations and
cache operations are counted so that the short-circuit can be seen to
touch neither. -/
def one_to_one (s : SpaceModel) (left right : ℕ) : OneToOneResult :=
  if left = right then
    { value := 0, after := s, metricCalls := 0, cacheOps := 0 }
  else if s.usesCache then
    match s.cache (cache_key left right) with
    | some d => { value := d, after := s, metricCalls := 0, cacheOps := 2 }
    | none =>
      let d := s.metric left right
      { value := d
        after := { s with cache := fun k => if k = cache_key left right then some d else s.cache k }
        metricCalls := 1
        cacheOps := 2 }
  else
    { value := s.metric left right, after := s, metricCalls := 1, cacheOps := 0 }

/-! ## The two-pole split of src/src/core/cluster.rs (C6) -/

/-- `Cluster::partition_duo` (src/src/core/cluster.rs, lines 483-537),
restricted to the member lists it produces.  The member indices are
zipped with the cached distance lists from the two poles `a` and `b`;
members other than the poles go to the alpha bucket when the distance to
`a` is at most the distance to `b`; each pole is prepended to its bucket;
finally the buckets are swapped when alpha is strictly smaller, so that
the first (left, history suffix `00`) child is the larger. -/
def partition_duo (indices : List ℕ) (a_distances b_distances : List ℚ) (a b : ℕ) :
    List ℕ × List ℕ :=
  let pairs := indices.zip (a_distances.zip b_distances)
  let split := (pairs.filter (fun p => decide (p.1 ≠ a ∧ p.1 ≠ b))).partition
    (fun p => decide (p.2.1 ≤ p.2.2))
  let alpha := a :: split.1.map Prod.fst
  let bravo := b :: split.2.map Prod.fst
  if alpha.length < bravo.length then (bravo, alpha) else (alpha, bravo)

/-! ## Cluster naming (C7) -/

/-- One lowercase hexadecimal digit for a value below 16, as produced by
the `format!` with the `x` specifier in `Cluster::name`. -/
def hexChar (v : ℕ) : Char :=
  if v < 10 then Char.ofNat (48 + v) else Char.ofNat (87 + v)

/-- Grouping of a bit string into 4-bit nibble values, most significant
bit first; a trailing group of fewer than four bits is dropped, exactly
as `chunks_exact(4)` does. -/
def bitsToNibbles : List Bool → List ℕ
  | b0 :: b1 :: b2 :: b3 :: rest =>
    (8 * b0.toNat + 4 * b1.toNat + 2 * b2.toNat + b3.toNat) :: bitsToNibbles rest
  | _ => []

/-- Hex encoding of a history bit string after left-padding it with a
given number of zero bits. -/
def nameWithPadding (padding : ℕ) (history : List Bool) : String :=
  String.mk ((bitsToNibbles (List.replicate padding false ++ history)).map hexChar)

/-- `Cluster::name` (src/src/core/cluster.rs, lines 727-744): the padding
is `4 - len % 4`, which is 4 rather than 0 when the history length is a
multiple of four. -/
def cluster_name (history : List Bool) : String :=
  nameWithPadding (4 - history.length % 4) history

/-- The name computation asserted by the claim: left-padding with
`(4 - len % 4) % 4` zero bits. -/
def claimed_cluster_name (history : List Bool) : String :=
  nameWithPadding ((4 - history.length % 4) % 4) history

/-- The history bit strings that clusters of src/src/core/cluster.rs can
carry: `new_root` starts from the single bit 1, and each of
`partition_duo`, `partition_trio` and `partition_quadro` names a child by
appending exactly two bits to the parent history. -/
inductive IsHistory : List Bool → Prop where
  | root : IsHistory [true]
  | child {h : List Bool} (x y : Bool) : IsHistory h → IsHistory (h ++ [x, y])

/-! ## The multiway cluster tree and `knn_search` (C8) -/

/-- The `Children` shapes of src/src/core/cluster.rs: leaves own an
explicit member list, internal nodes own two, three or four children. -/
inductive ClusterM where
  | none_ : List ℕ → ClusterM
  | dipole : ClusterM → ClusterM → ClusterM
  | trigon : ClusterM → ClusterM → ClusterM → ClusterM
  | tetragon : ClusterM → ClusterM → ClusterM → ClusterM → ClusterM
deriving DecidableEq

/-- `Cluster::indices` (src/src/core/cluster.rs, lines 713-720): a leaf
returns its stored list, an internal node concatenates the member lists
of its children in order. -/
def indicesM : ClusterM → List ℕ
  | ClusterM.none_ is => is
  | ClusterM.dipole a b => indicesM a ++ indicesM b
  | ClusterM.trigon a b c => indicesM a ++ indicesM b ++ indicesM c
  | ClusterM.tetragon a b c d => indicesM a ++ indicesM b ++ indicesM c ++ indicesM d

/-- The cluster cardinality: the stored `cardinality` field always equals
the length of the member list (it is set to `indices.len()` at
construction), so it is modelled as that length. -/
def cardinalityM (c : ClusterM) : ℕ :=
  (indicesM c).length

/-- `CAKES::knn_search` (src/src/search/cakes.rs, lines 216-229): when
`k` exceeds the root cardinality the root member list is returned as is;
otherwise the sieve-based search runs.  The sieve (`KnnSieve`, whose
source is not part of this tree) is abstracted as a parameter, which the
oversized-k claim never reaches. -/
def knn_search (sieve : ℕ → List ℕ) (root : ClusterM) (k : ℕ) : List ℕ :=
  if cardinalityM root < k then indicesM root else sieve k

/-! ## The abd-clam binary tree and the clustered RNN search (C1, C2)

The search driver below is embedded from
src/crates/abd-clam/src/cakes/rnn/clustered.rs.  The `Cluster` and
`Tree` types it runs on, the linear baseline and the query build
pipeline are not under src/ in this tree (only this caller is), so they
are modelled from the specification, as marked on each definition.
Distance values use an arbitrary linearly ordered commutative ring, as
the Rust code is generic over `U: Number`. -/

variable {U : Type} [LinearOrderedCommRing U]

/-- A binary cluster as used by the clustered search: every cluster
carries a center index and a radius; an internal node also carries the
two pole indices, the polar distance and its two children, while a leaf
carries its member list.  Modelled from the spec (sections 3 and 4.9):
the fields are exactly those the search reads. -/
inductive ClusterU (U : Type) where
  | leaf : ℕ → U → List ℕ → ClusterU U
  | node : ℕ → U → ℕ → ℕ → U → ClusterU U → ClusterU U → ClusterU U
deriving DecidableEq

/-- The `arg_center` of a cluster. -/
def argCenterU : ClusterU U → ℕ
  | ClusterU.leaf a _ _ => a
  | ClusterU.node a _ _ _ _ _ _ => a

/-- The `radius` of a cluster. -/
def radiusU : ClusterU U → U
  | ClusterU.leaf _ rad _ => rad
  | ClusterU.node _ rad _ _ _ _ _ => rad

/-- `Cluster::is_leaf`: whether the cluster has no children. -/
def isLeafU : ClusterU U → Bool
  | ClusterU.leaf _ _ _ => true
  | ClusterU.node _ _ _ _ _ _ _ => false

/-- `Cluster::is_singleton`: a cluster of radius zero (a single instance
or duplicates). -/
def isSingletonU (c : ClusterU U) : Bool :=
  decide (radiusU c = 0)

/-- `Cluster::children` as a list: empty for a leaf, the two children in
order for an internal node. -/
def childrenU : ClusterU U → List (ClusterU U)
  | ClusterU.leaf _ _ _ => []
  | ClusterU.node _ _ _ _ _ l r => [l, r]

/-- `Cluster::indices`: members of a leaf are stored, members of an
internal node are the concatenation of the members of its children. -/
def indicesU : ClusterU U → List ℕ
  | ClusterU.leaf _ _ is => is
  | ClusterU.node _ _ _ _ _ l r => indicesU l ++ indicesU r

/-- `Cluster::cardinality`: the stored field always equals the length of
the member list, so it is modelled as that length. -/
def cardinalityU (c : ClusterU U) : ℕ :=
  (indicesU c).length

/-- The number of clusters in a subtree; used only to pick a sufficient
iteration budget for the breadth-first loop, whose every iteration
strictly decreases the total size of the candidate list. -/
def sizeU : ClusterU U → ℕ
  | ClusterU.leaf _ _ _ => 1
  | ClusterU.node _ _ _ _ _ l r => 1 + sizeU l + sizeU r

/-- Modelled from the spec (section 4.9): `overlapping_children(D, q, r)`
computes the query distances to the two poles and keeps both children
when `(d_near + d_far) * (d_far - d_near) ≤ 2 * polar_distance * r`,
otherwise only the child whose pole is nearer.  Leaves are never called
and yield the empty list. -/
def overlapping_children (qd : ℕ → U) (r : U) : ClusterU U → List (ClusterU U)
  | ClusterU.leaf _ _ _ => []
  | ClusterU.node _ _ aL aR polar l r' =>
    let dl := qd aL
    let dr := qd aR
    if (min dl dr + max dl dr) * (max dl dr - min dl dr) ≤ 2 * polar * r then [l, r']
    else if dl ≤ dr then [l] else [r']

/-- The linear range search: every index is paired with its distance to
the query and the pairs within the radius are kept.  This is
`CAKES::linear_search` from src/cakes/src/cakes.rs (lines 131-144) and
also models `rnn/linear.rs` (spec section 4.10), which filters exactly
the same way. -/
def linear_search (qd : ℕ → U) (r : U) (indices : List ℕ) : List (ℕ × U) :=
  (indices.map (fun i => (i, qd i))).filter (fun p => decide (p.2 ≤ r))

/-- One iteration of the breadth-first loop of `tree_search`
(src/crates/abd-clam/src/cakes/rnn/clustered.rs, lines 58-80): pair each
candidate with its center distance, drop the candidates disjoint from the
query ball, peel off the confirmed ones and the leaf straddlers, and
replace each remaining candidate by `overlapping_children` when the query
lies inside its ball and by both children otherwise. -/
def rnn_step (qd : ℕ → U) (r : U) (candidates : List (ClusterU U)) :
    List (ClusterU U × U) × List (ClusterU U × U) × List (ClusterU U) :=
  let kept := (candidates.map (fun c => (c, qd (argCenterU c)))).filter
    (fun p => decide (p.2 ≤ radiusU p.1 + r))
  let conf := kept.partition (fun p => decide (radiusU p.1 + p.2 ≤ r))
  let strad := conf.2.partition (fun p => isLeafU p.1)
  let next := strad.2.flatMap (fun p =>
    if p.2 < radiusU p.1 then overlapping_children qd r p.1 else childrenU p.1)
  (conf.1, strad.1, next)

/-- The iteration claimed by the specification (section 4.10): identical
to `rnn_step` except that a surviving non-leaf candidate is always
replaced by `overlapping_children(D, Q, r)`. -/
def claimed_rnn_step (qd : ℕ → U) (r : U) (candidates : List (ClusterU U)) :
    List (ClusterU U × U) × List (ClusterU U × U) × List (ClusterU U) :=
  let kept := (candidates.map (fun c => (c, qd (argCenterU c)))).filter
    (fun p => decide (p.2 ≤ radiusU p.1 + r))
  let conf := kept.partition (fun p => decide (radiusU p.1 + p.2 ≤ r))
  let strad := conf.2.partition (fun p => isLeafU p.1)
  let next := strad.2.flatMap (fun p => overlapping_children qd r p.1)
  (conf.1, strad.1, next)

/-- The breadth-first loop of `tree_search`, iterated until the candidate
list is empty.  The loop of the Rust code terminates because every
iteration replaces candidates by strictly smaller subtrees; the fuel
argument bounds the number of iterations and `sizeU root + 1` always
suffices. -/
def tree_search_loop (qd : ℕ → U) (r : U) :
    ℕ → List (ClusterU U) → List (ClusterU U × U) × List (ClusterU U × U)
  | 0, _ => ([], [])
  | _ + 1, [] => ([], [])
  | fuel + 1, c :: cs =>
    let step := rnn_step qd r (c :: cs)
    let rest := tree_search_loop qd r fuel step.2.2
    (step.1 ++ rest.1, step.2.1 ++ rest.2)

/-- `tree_search` (src/crates/abd-clam/src/cakes/rnn/clustered.rs, lines
47-83): run the breadth-first loop starting from the root and return the
confirmed clusters and the straddlers, each with its center distance. -/
def tree_search (qd : ℕ → U) (root : ClusterU U) (r : U) :
    List (ClusterU U × U) × List (ClusterU U × U) :=
  tree_search_loop qd r (sizeU root + 1) [root]

/-- `leaf_search` (src/crates/abd-clam/src/cakes/rnn/clustered.rs, lines
86-113): every member of a confirmed cluster is emitted, reusing the
center distance for singleton clusters and computing the member distances
otherwise; the members of the straddlers are filtered linearly. -/
def leaf_search (qd : ℕ → U) (r : U)
    (confirmed straddlers : List (ClusterU U × U)) : List (ℕ × U) :=
  let hits := confirmed.flatMap (fun p =>
    let distances := if isSingletonU p.1 then List.replicate (cardinalityU p.1) p.2
      else (indicesU p.1).map qd
    (indicesU p.1).zip distances)
  let straddler_indices := straddlers.flatMap (fun p => indicesU p.1)
  hits ++ linear_search qd r straddler_indices

/-- The clustered RNN search, `search` from
src/crates/abd-clam/src/cakes/rnn/clustered.rs (lines 21-29):
`tree_search` followed by `leaf_search`. -/
def clustered_rnn (qd : ℕ → U) (root : ClusterU U) (r : U) : List (ℕ × U) :=
  let ts := tree_search qd root r
  leaf_search qd r ts.1 ts.2

/-- The geometric tree invariant used by the search: every member of
every cluster lies within the cluster radius of the cluster center
(specification section 3, invariant 3). -/
def GoodTree (pd : ℕ → ℕ → U) : ClusterU U → Prop
  | ClusterU.leaf a rad is => ∀ i ∈ is, pd a i ≤ rad
  | ClusterU.node a rad _ _ _ l r =>
    (∀ i ∈ indicesU l ++ indicesU r, pd a i ≤ rad) ∧ GoodTree pd l ∧ GoodTree pd r

/-- The subtree relation on clusters. -/
inductive InTree : ClusterU U → ClusterU U → Prop where
  | refl (c : ClusterU U) : InTree c c
  | left {c l r : ClusterU U} (a : ℕ) (rad : U) (aL aR : ℕ) (polar : U) :
    InTree c l → InTree c (ClusterU.node a rad aL aR polar l r)
  | right {c l r : ClusterU U} (a : ℕ) (rad : U) (aL aR : ℕ) (polar : U) :
    InTree c r → InTree c (ClusterU.node a rad aL aR polar l r)

/-! ## The spec-modelled build pipeline and the concrete counterexample data -/

/-- `arg_max` from src/src/utils/helpers.rs (lines 16-27): the first
index attaining the maximum, found by a fold that replaces the running
best only on a strictly larger value.  The empty case returns `(0, 0)`
(the Rust code would panic; it is never called on an empty list here). -/
def arg_max (values : List U) : ℕ × U :=
  match values with
  | [] => (0, 0)
  | v :: _ => values.enum.foldl
      (fun best p => if best.2 < p.2 then p else best) (0, v)

/-- Modelled from the spec (section 3, `median`): the sum of distances
from instance `i` to the other elements of the sample. -/
def sum_dists (pd : ℕ → ℕ → U) (A : List ℕ) (i : ℕ) : U :=
  ((A.filter (fun j => decide (j ≠ i))).map (pd i)).sum

/-- Modelled from the spec (section 4.5, step 2): the element of the
sample minimizing the sum of distances to the other elements, ties broken
by the smallest index. -/
def choose_center (pd : ℕ → ℕ → U) (A : List ℕ) : ℕ :=
  match A with
  | [] => 0
  | a0 :: rest => rest.foldl
      (fun best i =>
        if sum_dists pd A i < sum_dists pd A best ∨
            (sum_dists pd A i = sum_dists pd A best ∧ i < best) then i else best)
      a0

/-- Modelled from the spec (sections 4.5-4.7): build a cluster on the
index list `I`, then split it by the two-pole partition when the
criteria allow and the radius is positive, recursing on the two buckets.
The sample is the whole index list when it has fewer than 100 elements
(spec constant S = 100) and is delegated to the `sample` parameter
otherwise; the poles are the instance farthest from the center and the
instance farthest from the first pole; members go to the left bucket
when their distance to the left pole is at most their distance to the
right pole; buckets and poles are swapped when the left bucket is
strictly smaller.  The fuel bounds the recursion depth, which the
strictly shrinking buckets of a valid run never exhaust. -/
def build_cluster (pd : ℕ → ℕ → U) (sample : List ℕ → List ℕ) (crit : ℕ → U → Bool) :
    ℕ → List ℕ → ClusterU U
  | 0, I => ClusterU.leaf 0 0 I
  | fuel + 1, I =>
    let A := if I.length < 100 then I else sample I
    let center := choose_center pd A
    let km := arg_max (I.map (pd center))
    let radius := km.2
    let leftPole := I.getD km.1 0
    if crit I.length radius && decide (0 < radius) && decide (2 ≤ I.length) then
      let L := I.map (pd leftPole)
      let kb := arg_max L
      let polar := kb.2
      let rightPole := I.getD kb.1 0
      let split := ((I.zip (L.zip (I.map (pd rightPole)))).filter
        (fun t => decide (t.1 ≠ leftPole ∧ t.1 ≠ rightPole))).partition
        (fun t => decide (t.2.1 ≤ t.2.2))
      let alpha := split.1.map Prod.fst ++ [leftPole]
      let bravo := split.2.map Prod.fst ++ [rightPole]
      if alpha.length < bravo.length then
        ClusterU.node center radius rightPole leftPole polar
          (build_cluster pd sample crit fuel bravo) (build_cluster pd sample crit fuel alpha)
      else
        ClusterU.node center radius leftPole rightPole polar
          (build_cluster pd sample crit fuel alpha) (build_cluster pd sample crit fuel bravo)
    else ClusterU.leaf center radius I

/-- A metric on the first `n` indices: zero self-distance, nonnegative
and symmetric values, and the triangle inequality. -/
def IsMetricOn (d : ℕ → ℕ → ℤ) (n : ℕ) : Prop :=
  (∀ i < n, d i i = 0) ∧
  (∀ i < n, ∀ j < n, 0 ≤ d i j ∧ d i j = d j i) ∧
  (∀ i < n, ∀ j < n, ∀ k < n, d i k ≤ d i j + d j k)

/-- A four-point metric space: the three dataset instances 0, 1, 2 and a
query point with index 3. -/
def dist4 (i j : ℕ) : ℤ :=
  match i, j with
  | 0, 1 | 1, 0 => 54
  | 0, 2 | 2, 0 => 53
  | 1, 2 | 2, 1 => 100
  | 3, 0 | 0, 3 => 10
  | 3, 1 | 1, 3 => 44
  | 3, 2 | 2, 3 => 63
  | _, _ => 0

/-- Distances from the query of `dist4` to the dataset instances. -/
def qd1 (i : ℕ) : ℤ :=
  dist4 3 i

/-- The strict default partition criteria (spec section 4.4): minimum
cardinality 2, allowing a split only above it. -/
def critStrict (card : ℕ) (_ : ℤ) : Bool :=
  decide (2 < card)

/-- The tree built by the spec-modelled pipeline on the three-instance
dataset of `dist4`. -/
def treeC : ClusterU ℤ :=
  build_cluster dist4 id critStrict 4 [0, 1, 2]

/-- A second four-point metric space on the same three dataset
instances, with a different query point as index 3. -/
def dist4b (i j : ℕ) : ℤ :=
  match i, j with
  | 0, 1 | 1, 0 => 54
  | 0, 2 | 2, 0 => 53
  | 1, 2 | 2, 1 => 100
  | 3, 0 | 0, 3 => 60
  | 3, 1 | 1, 3 => 100
  | 3, 2 | 2, 3 => 10
  | _, _ => 0

/-- Distances from the query of `dist4b` to the dataset instances. -/
def qd2 (i : ℕ) : ℤ :=
  dist4b 3 i

instance (d : ℕ → ℕ → ℤ) (n : ℕ) : Decidable (IsMetricOn d n) := by
  unfold IsMetricOn; infer_instance

instance goodTreeDecidable (pd : ℕ → ℕ → U) :
    (c : ClusterU U) → Decidable (GoodTree pd c)
  | ClusterU.leaf _ _ _ => by unfold GoodTree; infer_instance
  | ClusterU.node _ _ _ _ _ l r => by
    have hl := goodTreeDecidable pd l
    have hr := goodTreeDecidable pd r
    unfold GoodTree
    infer_instance

/-- Query distances for the two-instance KNN scenario: instance 0 at
distance 1, instance 1 at distance 0. -/
def qdK (i : ℕ) : ℚ :=
  if i = 0 then 1 else 0

/-! ## Theorems -/

/-- Claim C10: for every index `i`, `Space::one_to_one(i, i)` returns
exactly zero without invoking the metric function or touching the
distance cache, whatever value the metric function would return for the
pair `(i, i)`. -/
theorem one_to_one_self_zero (s : SpaceModel) (i : ℕ) :
    one_to_one s i i = { value := 0, after := s, metricCalls := 0, cacheOps := 0 } := by
  simp [one_to_one]

/-- Claim C9, counterexample: an empty dataset at construction and `k =
0` in the adaptive KNN search are not reported as recoverable errors;
both runs abort by a failed assertion. -/
theorem argument_checks_counterexample :
    new_root_check [] = Outcome.panicked ∧ knn_by_rnn_check 0 = Outcome.panicked := by
  exact ⟨rfl, rfl⟩

/-- Claim C9, amended: `Cluster::new_root` panics exactly on an empty
dataset and `CAKES::knn_by_rnn` panics exactly on `k = 0`; the invalid
arguments abort the process by an assertion instead of being returned as
recoverable error values. -/
theorem argument_checks_panic :
    (∀ indices : List ℕ, new_root_check indices = Outcome.panicked ↔ indices = []) ∧
    (∀ k : ℕ, knn_by_rnn_check k = Outcome.panicked ↔ k = 0) := by
  constructor
  · intro indices
    cases indices <;> simp [new_root_check]
  · intro k
    cases k <;> simp [knn_by_rnn_check]

/-- Claim C4, counterexample: with root radius 100 and four instances,
the code starts the adaptive KNN search from `100/100 + 1e-6`, which is
not `max(100/100, 1e-6)`. -/
theorem base_knn_radius_counterexample :
    base_knn_radius 100 4 ≠ claimed_base_knn_radius 100 4 := by
  norm_num [base_knn_radius, claimed_base_knn_radius]

/-- Claim C4, amended: the initial guess radius of the repeated-RNN
search is `radius(root) / f + 1e-6` (not a maximum with the epsilon),
where `f = 1000` when the cardinality is at least one million and
`f = 100` otherwise. -/
theorem base_knn_radius_eq (rootRadius : ℚ) (cardinality : ℕ) :
    (1000000 ≤ cardinality →
      base_knn_radius rootRadius cardinality = rootRadius / 1000 + 1 / 1000000) ∧
    (cardinality < 1000000 →
      base_knn_radius rootRadius cardinality = rootRadius / 100 + 1 / 1000000) := by
  constructor
  · intro h
    simp [base_knn_radius, if_pos h]
  · intro h
    simp [base_knn_radius, if_neg (by omega : ¬ 1000000 ≤ cardinality)]

/-- Witness for `base_knn_radius_eq` at a concrete large and a concrete
small cardinality. -/
theorem base_knn_radius_eq_witness :
    (1000000 ≤ 2000000 ∧ base_knn_radius 5 2000000 = 5 / 1000 + 1 / 1000000) ∧
    (4 < 1000000 ∧ base_knn_radius 5 4 = 5 / 100 + 1 / 1000000) :=
  ⟨⟨by norm_num, (base_knn_radius_eq 5 2000000).1 (by norm_num)⟩,
   ⟨by norm_num, (base_knn_radius_eq 5 4).2 (by norm_num)⟩⟩

/-- Claim C8, counterexample: on a two-instance tree whose members are
stored as `[0, 1]`, a query at distance 1 from instance 0 and distance 0
from instance 1, and `k = 3 > N = 2`, `knn_search` returns `[0, 1]`,
which is not in ascending order of distance to the query. -/
theorem knn_search_counterexample :
    knn_search (fun _ => []) (ClusterM.none_ [0, 1]) 3 = [0, 1] ∧
    ¬ List.Pairwise (fun i j => qdK i ≤ qdK j) [0, 1] := by
  decide

/-- Claim C8, amended: for `k` greater than the cardinality,
`knn_search` returns the member list of the root exactly as stored (all
N instances, in tree order, not sorted by distance to the query). -/
theorem knn_search_oversized (sieve : ℕ → List ℕ) (root : ClusterM) (k : ℕ)
    (h : cardinalityM root < k) :
    knn_search sieve root k = indicesM root := by
  simp [knn_search, if_pos h]

/-- Witness for `knn_search_oversized` on the two-instance tree. -/
theorem knn_search_oversized_witness :
    cardinalityM (ClusterM.none_ [0, 1]) < 3 ∧
    knn_search (fun _ => []) (ClusterM.none_ [0, 1]) 3 = indicesM (ClusterM.none_ [0, 1]) :=
  ⟨by decide, knn_search_oversized (fun _ => []) (ClusterM.none_ [0, 1]) 3 (by decide)⟩

/-- Claim C5: the two-argument LFD estimator returns 1 at radius zero;
otherwise, with `h` the number of distances at most half the radius, it
returns 1 when `h = 0` and `log2(n / h)` when `h > 0`. -/
theorem compute_lfd_spec (distances : List ℚ) (radius : ℚ)
    (hnn : ∀ d ∈ distances, 0 ≤ d) :
    (radius = 0 → compute_lfd distances radius = 1) ∧
    (radius ≠ 0 →
      (distances.countP (fun d => decide (d ≤ radius / 2)) = 0 →
        compute_lfd distances radius = 1) ∧
      (0 < distances.countP (fun d => decide (d ≤ radius / 2)) →
        compute_lfd distances radius =
          Real.logb 2 ((distances.length : ℝ) /
            (distances.countP (fun d => decide (d ≤ radius / 2)) : ℝ)))) := by
  have hcount : (distances.filter (fun d => decide (d ≤ radius / 2))).length
      = distances.countP (fun d => decide (d ≤ radius / 2)) :=
    (List.countP_eq_length_filter _ _).symm
  refine ⟨fun h0 => by simp [compute_lfd, h0], fun hne => ⟨fun hz => ?_, fun hpos => ?_⟩⟩
  · simp [compute_lfd, hne, hcount, hz]
  · simp only [compute_lfd, if_neg hne, hcount]
    rw [if_pos hpos]

/-- Witness for `compute_lfd_spec`: on the nonnegative distances
`[1, 2, 4]` with radius 4, two distances are at most 2, so the estimate
is `log2(3 / 2)`. -/
theorem compute_lfd_spec_witness :
    (∀ d ∈ [(1 : ℚ), 2, 4], 0 ≤ d) ∧ (4 : ℚ) ≠ 0 ∧
    compute_lfd [1, 2, 4] 4 = Real.logb 2 ((3 : ℝ) / 2) := by
  refine ⟨by decide, by norm_num, ?_⟩
  have h := ((compute_lfd_spec [1, 2, 4] 4 (by decide)).2 (by norm_num)).2
  have hc : ([(1 : ℚ), 2, 4].countP (fun d => decide (d ≤ (4 : ℚ) / 2))) = 2 := by
    simp only [List.countP_cons, List.countP_nil]
    norm_num
  rw [hc] at h
  simpa using h (by norm_num)

/-- Splitting a list by a boolean predicate preserves total length. -/
theorem length_filter_add_length_filter_not {α : Type} (l : List α) (p : α → Bool) :
    (l.filter p).length + (l.filter (not ∘ p)).length = l.length := by
  induction l with
  | nil => rfl
  | cons x xs ih =>
    by_cases hx : p x = true <;>
      simp [List.filter_cons, hx, Function.comp] <;> omega

/-- Filtering a zip by a predicate on the first component keeps as many
elements as filtering the first list, as long as the second list is long
enough. -/
theorem length_filter_zip_fst {α β : Type} (l : List α) (m : List β) (q : α → Bool)
    (h : l.length ≤ m.length) :
    ((l.zip m).filter (fun p => q p.1)).length = (l.filter q).length := by
  induction l generalizing m with
  | nil => simp
  | cons x xs ih =>
    cases m with
    | nil => simp at h
    | cons y ys =>
      simp only [List.zip_cons_cons, List.filter_cons]
      by_cases hx : q x = true <;>
        simp [hx, ih ys (by simpa using Nat.le_of_succ_le_succ h)]

/-- Claim C6: whenever a built cluster with at least two members is
split by `partition_duo`, the two children member lists sum to the
parent cardinality and the first child (history suffix `00`) is at least
as large as the second. -/
theorem partition_duo_sizes (indices : List ℕ) (aD bD : List ℚ) (a b : ℕ)
    (hlenA : aD.length = indices.length) (hlenB : bD.length = indices.length)
    (hnd : indices.Nodup) (ha : a ∈ indices) (hb : b ∈ indices) (hab : a ≠ b) :
    (partition_duo indices aD bD a b).1.length + (partition_duo indices aD bD a b).2.length
      = indices.length ∧
    (partition_duo indices aD bD a b).2.length ≤ (partition_duo indices aD bD a b).1.length := by
  classical
  have hzip : ((indices.zip (aD.zip bD)).filter
        (fun p => decide (p.1 ≠ a ∧ p.1 ≠ b))).length
      = (indices.filter (fun i => decide (i ≠ a ∧ i ≠ b))).length := by
    refine length_filter_zip_fst indices (aD.zip bD)
      (fun i => decide (i ≠ a ∧ i ≠ b)) ?_
    rw [List.length_zip, hlenA, hlenB]
    omega
  have hmb : b ∈ indices.erase a := (List.mem_erase_of_ne hab.symm).mpr hb
  have hl1 : (indices.erase a).length = indices.length - 1 :=
    List.length_erase_of_mem ha
  have hl2 : ((indices.erase a).erase b).length = (indices.erase a).length - 1 :=
    List.length_erase_of_mem hmb
  have hge1 : 0 < indices.length := List.length_pos_of_mem ha
  have hge2 : 0 < (indices.erase a).length := List.length_pos_of_mem hmb
  have hfil : (indices.filter (fun i => decide (i ≠ a ∧ i ≠ b))).length
      = indices.length - 2 := by
    have he1 : indices.erase a = indices.filter (fun i => decide (i ≠ a)) := by
      simpa using hnd.erase_eq_filter a
    have he2 : (indices.erase a).erase b
        = (indices.erase a).filter (fun i => decide (i ≠ b)) := by
      simpa using (hnd.erase a).erase_eq_filter b
    have hcomb : (indices.erase a).erase b
        = indices.filter (fun i => decide (i ≠ a ∧ i ≠ b)) := by
      rw [he2, he1, List.filter_filter]
      congr 1
      funext i
      by_cases hia : i = a <;> by_cases hib : i = b <;> simp [hia, hib]
    rw [← hcomb, hl2, hl1]
    omega
  have hsplit := length_filter_add_length_filter_not
    ((indices.zip (aD.zip bD)).filter (fun p => decide (p.1 ≠ a ∧ p.1 ≠ b)))
    (fun p => decide (p.2.1 ≤ p.2.2))
  rw [hzip, hfil] at hsplit
  simp only [partition_duo, List.partition_eq_filter_filter]
  set base := (indices.zip (aD.zip bD)).filter (fun p => decide (p.1 ≠ a ∧ p.1 ≠ b))
    with hbase
  set x := (base.filter (fun p => decide (p.2.1 ≤ p.2.2))).length with hx
  set y := (base.filter (not ∘ fun p => decide (p.2.1 ≤ p.2.2))).length with hy
  simp only [List.length_cons, List.length_map]
  by_cases hlt : x + 1 < y + 1
  · rw [if_pos hlt]
    simp only [List.length_cons, List.length_map]
    omega
  · rw [if_neg hlt]
    simp only [List.length_cons, List.length_map]
    omega

/-- Witness for `partition_duo_sizes` on the concrete three-member
cluster with poles 1 and 2. -/
theorem partition_duo_sizes_witness :
    ([54, 0, 100] : List ℚ).length = ([0, 1, 2] : List ℕ).length ∧
    ([53, 100, 0] : List ℚ).length = ([0, 1, 2] : List ℕ).length ∧
    ([0, 1, 2] : List ℕ).Nodup ∧ 1 ∈ ([0, 1, 2] : List ℕ) ∧ 2 ∈ ([0, 1, 2] : List ℕ) ∧
    (partition_duo [0, 1, 2] [54, 0, 100] [53, 100, 0] 1 2).1.length +
      (partition_duo [0, 1, 2] [54, 0, 100] [53, 100, 0] 1 2).2.length = 3 ∧
    (partition_duo [0, 1, 2] [54, 0, 100] [53, 100, 0] 1 2).2.length ≤
      (partition_duo [0, 1, 2] [54, 0, 100] [53, 100, 0] 1 2).1.length :=
  ⟨by decide, by decide, by decide, by decide, by decide,
    (partition_duo_sizes [0, 1, 2] [54, 0, 100] [53, 100, 0] 1 2
      (by decide) (by decide) (by decide) (by decide) (by decide) (by decide)).1,
    (partition_duo_sizes [0, 1, 2] [54, 0, 100] [53, 100, 0] 1 2
      (by decide) (by decide) (by decide) (by decide) (by decide) (by decide)).2⟩

/-- Every history a cluster of src/src/core/cluster.rs can carry has odd
length: the root history is the single bit 1 and every child appends two
bits. -/
theorem isHistory_length_odd {h : List Bool} (hh : IsHistory h) : h.length % 2 = 1 := by
  induction hh with
  | root => rfl
  | child x y _ ih =>
    simp only [List.length_append, List.length_cons, List.length_nil]
    omega

/-- Claim C7: for every cluster history, `name()` equals the
claim-side encoding that left-pads with `(4 - d mod 4) mod 4` zero bits
and emits one lowercase hex digit per 4-bit nibble, and the root is
named "1".  The two padding formulas differ only at history lengths
divisible by four, which no cluster reaches: all histories have odd
length. -/
theorem cluster_name_spec :
    (∀ h : List Bool, IsHistory h → cluster_name h = claimed_cluster_name h) ∧
    cluster_name [true] = "1" := by
  constructor
  · intro h hh
    have hodd : h.length % 2 = 1 := isHistory_length_odd hh
    unfold cluster_name claimed_cluster_name
    congr 1
    omega
  · decide

/-- Witness for `cluster_name_spec` at the root history. -/
theorem cluster_name_spec_witness :
    IsHistory [true] ∧ cluster_name [true] = claimed_cluster_name [true] :=
  ⟨IsHistory.root, cluster_name_spec.1 [true] IsHistory.root⟩

/-- Whenever the one-argument LFD estimate produces a value (rather than
a panic or a NaN), that value is strictly positive: every per-point
estimate is 1 or a quotient of two negative logarithms. -/
theorem compute_lfd_points_pos (l : List ℚ) (lfd : ℝ)
    (h : compute_lfd_points l = some lfd) : 0 < lfd := by
  simp only [compute_lfd_points] at h
  set points := ((l.map (fun d => if d < 0 then 0 else d)).insertionSort (· ≤ ·))
    with hpoints
  have hnonneg : ∀ d ∈ points, 0 ≤ d := by
    intro d hd
    rw [hpoints, List.mem_insertionSort] at hd
    obtain ⟨y, _, hy⟩ := List.mem_map.mp hd
    by_cases hy0 : y < 0
    · rw [if_pos hy0] at hy
      exact le_of_eq hy
    · rw [if_neg hy0] at hy
      exact hy ▸ not_lt.mp hy0
  split at h
  case _ =>
    simp at h
  case _ r hlast =>
    by_cases hr : r = 0
    · rw [if_pos hr] at h
      simp only [Option.some.injEq] at h
      rw [← h]
      norm_num
    · rw [if_neg hr] at h
      have hrmem : r ∈ points := by
        obtain ⟨hne, hg⟩ := List.mem_getLast?_eq_getLast (l := points) (x := r)
          (by rw [hlast]; exact rfl)
        rw [hg]
        exact List.getLast_mem hne
      have hrpos : 0 < r := lt_of_le_of_ne (hnonneg r hrmem) (Ne.symm hr)
      set lfds := ((points.enum.filter (fun p => decide (p.2 < r))).map (fun p =>
        if p.2 = 0 ∨ p.2 = r then (1 : ℝ)
        else Real.logb 2 (((p.1 : ℝ) + 1) / (points.length : ℝ)) /
          Real.logb 2 ((p.2 : ℝ) / (r : ℝ)))) with hlfds
      by_cases hlen : lfds.length = 0
      · rw [if_pos hlen] at h
        simp at h
      · rw [if_neg hlen] at h
        simp only [Option.some.injEq] at h
        rw [← h]
        have hall : ∀ x ∈ lfds, (0 : ℝ) < x := by
          intro x hx
          rw [hlfds] at hx
          obtain ⟨p, hp, hfx⟩ := List.mem_map.mp hx
          obtain ⟨i, d⟩ := p
          obtain ⟨hmem, hdec⟩ := List.mem_filter.mp hp
          have hdr : d < r := of_decide_eq_true hdec
          have hget : points[i]? = some d := List.mk_mem_enum_iff_getElem?.mp hmem
          obtain ⟨hi, hieq⟩ := List.getElem?_eq_some_iff.mp hget
          have hdmem : d ∈ points := hieq ▸ List.getElem_mem hi
          have hdnn : 0 ≤ d := hnonneg d hdmem
          by_cases hcase : d = 0 ∨ d = r
          · rw [← hfx, if_pos hcase]
            norm_num
          · rw [← hfx, if_neg hcase]
            push_neg at hcase
            have hdpos : 0 < d := lt_of_le_of_ne hdnn (Ne.symm hcase.1)
            have hin : i + 1 < points.length := by
              have hlastE : points[points.length - 1]? = some r := by
                rw [← List.getLast?_eq_getElem?]
                exact hlast
              by_cases hieq2 : i = points.length - 1
              · rw [hieq2] at hget
                rw [hget] at hlastE
                simp only [Option.some.injEq] at hlastE
                exact absurd hlastE (ne_of_lt hdr)
              · omega
            have hlenpos : (0 : ℝ) < (points.length : ℝ) := by
              exact_mod_cast lt_of_le_of_lt (Nat.zero_le i) hi
            have hnum : Real.logb 2 (((i : ℝ) + 1) / (points.length : ℝ)) < 0 := by
              refine Real.logb_neg one_lt_two (div_pos (by positivity) hlenpos) ?_
              rw [div_lt_one hlenpos]
              exact_mod_cast hin
            have hden : Real.logb 2 ((d : ℝ) / (r : ℝ)) < 0 := by
              refine Real.logb_neg one_lt_two (by positivity) ?_
              rw [div_lt_one (by exact_mod_cast hrpos)]
              exact_mod_cast hdr
            rw [div_pos_iff]
            exact Or.inr ⟨hnum, hden⟩
        refine div_pos (List.sum_pos lfds hall ?_) ?_
        · intro hnil
          rw [hnil] at hlen
          exact hlen rfl
        · exact_mod_cast Nat.pos_of_ne_zero hlen

/-- Claim C3, counterexample: with `k = 1` and no hits, the code
multiplies the radius by exactly 2, while the multiplier asserted by the
claim, `(k / max(number_of_hits, 1))^(1/lfd)` capped at 2, equals 1 for
every lfd (here shown at lfd 1), and is in particular not strictly
greater than 1. -/
theorem knn_by_rnn_factor_counterexample :
    knn_by_rnn_factor 1 [] = some 2 ∧ claimed_knn_factor 1 0 1 = 1 ∧
    ¬ (1 : ℝ) < 1 ∧ (2 : ℝ) ≠ 1 := by
  refine ⟨rfl, ?_, by norm_num, by norm_num⟩
  simp [claimed_knn_factor, Real.one_rpow]

/-- Claim C3, amended: on an iteration with no hits, the radius is
multiplied by exactly 2; on an iteration with `0 < number_of_hits < k`
whose LFD estimate is defined, it is multiplied by
`(k / number_of_hits)^(1/lfd)` capped at 2, and in exact arithmetic this
multiplier is strictly greater than 1 (which the code asserts) and at
most 2. -/
theorem knn_by_rnn_factor_spec (k : ℕ) (hits : List (ℕ × ℚ)) (lfd : ℝ)
    (hk : hits.length < k) :
    (hits = [] → knn_by_rnn_factor k hits = some 2) ∧
    (hits ≠ [] → compute_lfd_points (hits.map Prod.snd) = some lfd →
      knn_by_rnn_factor k hits = some (claimed_knn_factor k hits.length lfd) ∧
      1 < claimed_knn_factor k hits.length lfd ∧
      claimed_knn_factor k hits.length lfd ≤ 2) := by
  constructor
  · intro he
    subst he
    rfl
  · intro hne hlfd
    have hpos : 0 < hits.length := List.length_pos.mpr hne
    have hlfdpos : 0 < lfd := compute_lfd_points_pos _ _ hlfd
    have hmax : max hits.length 1 = hits.length := Nat.max_eq_left hpos
    have hbase : 1 < (k : ℝ) / (hits.length : ℝ) := by
      rw [lt_div_iff₀ (by exact_mod_cast hpos), one_mul]
      exact_mod_cast hk
    have hfac : 1 < ((k : ℝ) / (hits.length : ℝ)) ^ ((1 : ℝ) / lfd) := by
      rw [Real.one_lt_rpow_iff_of_pos (lt_trans one_pos hbase)]
      exact Or.inl ⟨hbase, by positivity⟩
    have hclaim : claimed_knn_factor k hits.length lfd
        = min 2 (((k : ℝ) / (hits.length : ℝ)) ^ ((1 : ℝ) / lfd)) := by
      rw [claimed_knn_factor, hmax]
    refine ⟨?_, ?_, ?_⟩
    · simp only [knn_by_rnn_factor, if_neg (by omega : ¬ hits.length = 0), hlfd]
      rw [if_pos hfac, hclaim]
      by_cases hcap : 2 < ((k : ℝ) / (hits.length : ℝ)) ^ ((1 : ℝ) / lfd)
      · rw [if_pos hcap, min_eq_left (le_of_lt hcap)]
      · rw [if_neg hcap, min_eq_right (not_lt.mp hcap)]
    · rw [hclaim]
      exact lt_min one_lt_two hfac
    · rw [hclaim]
      exact min_le_left _ _

/-- Witness for `knn_by_rnn_factor_spec`: one hit at distance zero and
`k = 2`; the LFD estimate is 1 and the multiplier is exactly 2. -/
theorem knn_by_rnn_factor_spec_witness :
    ([((5 : ℕ), (0 : ℚ))].length < 2) ∧ ([((5 : ℕ), (0 : ℚ))] ≠ []) ∧
    compute_lfd_points ([((5 : ℕ), (0 : ℚ))].map Prod.snd) = some 1 ∧
    knn_by_rnn_factor 2 [((5 : ℕ), (0 : ℚ))]
      = some (claimed_knn_factor 2 [((5 : ℕ), (0 : ℚ))].length 1) ∧
    1 < claimed_knn_factor 2 [((5 : ℕ), (0 : ℚ))].length 1 := by
  have hlfd : compute_lfd_points ([((5 : ℕ), (0 : ℚ))].map Prod.snd) = some 1 := rfl
  have h := (knn_by_rnn_factor_spec 2 [((5 : ℕ), (0 : ℚ))] 1 (by norm_num)).2
    (by simp) hlfd
  exact ⟨by norm_num, by simp, hlfd, h.1, h.2.1⟩

/-- Mapping after a boolean filter is a `filterMap` by the guarded
function. -/
theorem map_filter_eq_filterMap {α β : Type} (f : α → β) (q : α → Bool)
    (g : α → Option β) (hg : ∀ c, g c = if q c then some (f c) else none) (l : List α) :
    (l.filter q).map f = l.filterMap g := by
  induction l with
  | nil => rfl
  | cons c cs ih =>
    by_cases hc : q c = true
    · rw [List.filter_cons_of_pos hc, List.map_cons,
        List.filterMap_cons_some ((hg c).trans (if_pos hc)), ih]
    · rw [List.filter_cons_of_neg hc,
        List.filterMap_cons_none ((hg c).trans (if_neg hc)), ih]

/-- Flat-mapping after a boolean filter is a `flatMap` by the guarded
function. -/
theorem flatMap_filter_eq_flatMap {α β : Type} (q : α → Bool) (e : α → List β)
    (g : α → List β) (hg : ∀ c, g c = if q c then e c else []) (l : List α) :
    (l.filter q).flatMap e = l.flatMap g := by
  induction l with
  | nil => rfl
  | cons c cs ih =>
    by_cases hc : q c = true
    · rw [List.filter_cons_of_pos hc, List.flatMap_cons, ih, List.flatMap_cons,
        hg c, if_pos hc]
    · rw [List.filter_cons_of_neg hc, ih, List.flatMap_cons, hg c, if_neg hc,
        List.nil_append]

/-- Claim C2, amended: one iteration of the RNN tree phase acts on every
candidate C with center distance d independently: C is dropped when
`d > radius(C) + r`; moved to `confirmed` when `radius(C) + d ≤ r`;
moved to `straddlers` when it is a leaf; otherwise it is replaced by
`overlapping_children(D, Q, r)` when `d < radius(C)` and by both
children when `d ≥ radius(C)`. -/
theorem rnn_step_spec {U : Type} [LinearOrderedCommRing U] (qd : ℕ → U) (r : U)
    (candidates : List (ClusterU U)) :
    rnn_step qd r candidates =
      (candidates.filterMap (fun c =>
        if qd (argCenterU c) ≤ radiusU c + r ∧ radiusU c + qd (argCenterU c) ≤ r
        then some (c, qd (argCenterU c)) else none),
       candidates.filterMap (fun c =>
        if qd (argCenterU c) ≤ radiusU c + r ∧ ¬ radiusU c + qd (argCenterU c) ≤ r ∧
            isLeafU c = true
        then some (c, qd (argCenterU c)) else none),
       candidates.flatMap (fun c =>
        if qd (argCenterU c) ≤ radiusU c + r ∧ ¬ radiusU c + qd (argCenterU c) ≤ r ∧
            ¬ isLeafU c = true
        then (if qd (argCenterU c) < radiusU c then overlapping_children qd r c
          else childrenU c)
        else [])) := by
  simp only [rnn_step, List.partition_eq_filter_filter, List.filter_map,
    List.filter_filter, List.flatMap_map, Function.comp]
  refine Prod.ext ?_ (Prod.ext ?_ ?_)
  · refine map_filter_eq_filterMap _ _ _ (fun c => ?_) candidates
    by_cases h1 : qd (argCenterU c) ≤ radiusU c + r <;>
      by_cases h2 : radiusU c + qd (argCenterU c) ≤ r <;>
      simp [h1, h2]
  · refine map_filter_eq_filterMap _ _ _ (fun c => ?_) candidates
    by_cases h1 : qd (argCenterU c) ≤ radiusU c + r <;>
      by_cases h2 : radiusU c + qd (argCenterU c) ≤ r <;>
      by_cases h3 : isLeafU c = true <;>
      simp [h1, h2, h3]
  · refine flatMap_filter_eq_flatMap _ _ _ (fun c => ?_) candidates
    by_cases h1 : qd (argCenterU c) ≤ radiusU c + r <;>
      by_cases h2 : radiusU c + qd (argCenterU c) ≤ r <;>
      by_cases h3 : isLeafU c = true <;>
      simp [h1, h2, h3]

/-- Claim C2, counterexample: on the root of the concrete tree `treeC`
with the metrically valid query of `dist4b` and radius 10, the center
distance 60 is at least the root radius 54, so the code replaces the
root by both children, while the claim prescribes
`overlapping_children`, which here prunes to a single child; the two
candidate lists differ. -/
theorem rnn_step_counterexample :
    IsMetricOn dist4b 4 ∧
    (rnn_step qd2 (10 : ℤ) [treeC]).2.2 = childrenU treeC ∧
    (claimed_rnn_step qd2 (10 : ℤ) [treeC]).2.2 = overlapping_children qd2 10 treeC ∧
    (rnn_step qd2 (10 : ℤ) [treeC]).2.2 ≠ (claimed_rnn_step qd2 (10 : ℤ) [treeC]).2.2 := by
  decide

/-- Every cluster returned by `overlapping_children` is a child of the
node it was called on. -/
theorem mem_overlapping_children_sub {qd : ℕ → U} {r : U} {c c' : ClusterU U}
    (h : c' ∈ overlapping_children qd r c) : c' ∈ childrenU c := by
  cases c with
  | leaf a rad is => simp [overlapping_children] at h
  | node a rad aL aR polar l r' =>
    simp only [overlapping_children, childrenU] at h ⊢
    split at h
    · exact h
    · split at h <;> simp only [List.mem_singleton] at h <;> simp [h]

/-- A child is a subtree of its parent. -/
theorem mem_children_inTree {c c' : ClusterU U} (h : c' ∈ childrenU c) : InTree c' c := by
  cases c with
  | leaf a rad is => simp [childrenU] at h
  | node a rad aL aR polar l r' =>
    simp only [childrenU, List.mem_cons, List.mem_singleton, List.not_mem_nil,
      or_false] at h
    cases h with
    | inl h => exact h ▸ InTree.left a rad aL aR polar (InTree.refl _)
    | inr h => exact h ▸ InTree.right a rad aL aR polar (InTree.refl _)

/-- The subtree relation is transitive. -/
theorem inTree_trans {a b c : ClusterU U} (hab : InTree a b) (hbc : InTree b c) :
    InTree a c := by
  induction hbc with
  | refl => exact hab
  | left a' rad aL aR polar _ ih => exact InTree.left a' rad aL aR polar ih
  | right a' rad aL aR polar _ ih => exact InTree.right a' rad aL aR polar ih

/-- Members of a subtree are members of the whole tree. -/
theorem mem_indices_of_inTree {c root : ClusterU U} (h : InTree c root) :
    ∀ i ∈ indicesU c, i ∈ indicesU root := by
  induction h with
  | refl => exact fun i hi => hi
  | left a rad aL aR polar _ ih =>
    intro i hi
    exact List.mem_append_left _ (ih i hi)
  | right a rad aL aR polar _ ih =>
    intro i hi
    exact List.mem_append_right _ (ih i hi)

/-- The geometric invariant restricts to every subtree. -/
theorem goodTree_of_inTree {pd : ℕ → ℕ → U} {c root : ClusterU U}
    (hg : GoodTree pd root) (h : InTree c root) : GoodTree pd c := by
  induction h with
  | refl => exact hg
  | left _ _ _ _ _ _ ih => exact ih hg.2.1
  | right _ _ _ _ _ _ ih => exact ih hg.2.2

/-- The ball property at the top of an invariant-satisfying cluster. -/
theorem goodTree_ball {pd : ℕ → ℕ → U} {c : ClusterU U} (hg : GoodTree pd c) :
    ∀ i ∈ indicesU c, pd (argCenterU c) i ≤ radiusU c := by
  cases c with
  | leaf a rad is => exact hg
  | node a rad aL aR polar l r' => exact hg.1

/-- Every confirmed pair produced by one search iteration is a candidate
paired with its center distance, and its ball lies inside the query
ball. -/
theorem rnn_step_confirmed_mem {qd : ℕ → U} {r : U} {cands : List (ClusterU U)}
    {p : ClusterU U × U} (hp : p ∈ (rnn_step qd r cands).1) :
    p.1 ∈ cands ∧ p.2 = qd (argCenterU p.1) ∧ radiusU p.1 + p.2 ≤ r := by
  simp only [rnn_step, List.partition_eq_filter_filter] at hp
  obtain ⟨hp1, h2⟩ := List.mem_filter.mp hp
  obtain ⟨hp2, h1⟩ := List.mem_filter.mp hp1
  obtain ⟨c, hc, hfc⟩ := List.mem_map.mp hp2
  refine ⟨?_, ?_, of_decide_eq_true h2⟩
  · rw [← hfc]
    exact hc
  · rw [← hfc]

/-- Every straddler pair produced by one search iteration is a candidate
paired with its center distance. -/
theorem rnn_step_straddler_mem {qd : ℕ → U} {r : U} {cands : List (ClusterU U)}
    {p : ClusterU U × U} (hp : p ∈ (rnn_step qd r cands).2.1) :
    p.1 ∈ cands ∧ p.2 = qd (argCenterU p.1) := by
  simp only [rnn_step, List.partition_eq_filter_filter] at hp
  obtain ⟨hp1, _⟩ := List.mem_filter.mp hp
  obtain ⟨hp2, _⟩ := List.mem_filter.mp hp1
  obtain ⟨hp3, _⟩ := List.mem_filter.mp hp2
  obtain ⟨c, hc, hfc⟩ := List.mem_map.mp hp3
  refine ⟨?_, ?_⟩
  · rw [← hfc]
    exact hc
  · rw [← hfc]

/-- Every new candidate produced by one search iteration is a child of
one of the previous candidates. -/
theorem rnn_step_next_mem {qd : ℕ → U} {r : U} {cands : List (ClusterU U)}
    {c' : ClusterU U} (hc' : c' ∈ (rnn_step qd r cands).2.2) :
    ∃ c ∈ cands, c' ∈ childrenU c := by
  simp only [rnn_step, List.partition_eq_filter_filter] at hc'
  obtain ⟨p, hp, hmem⟩ := List.mem_flatMap.mp hc'
  obtain ⟨hp1, _⟩ := List.mem_filter.mp hp
  obtain ⟨hp2, _⟩ := List.mem_filter.mp hp1
  obtain ⟨hp3, _⟩ := List.mem_filter.mp hp2
  obtain ⟨c, hc, hfc⟩ := List.mem_map.mp hp3
  refine ⟨c, hc, ?_⟩
  rw [← hfc] at hmem
  by_cases hlt : qd (argCenterU c) < radiusU c
  · rw [if_pos hlt] at hmem
    exact mem_overlapping_children_sub hmem
  · rw [if_neg hlt] at hmem
    exact hmem

/-- Invariant of the breadth-first loop: every confirmed pair is a
subtree of one of the initial candidates, carries its center distance,
and its ball is inside the query ball; every straddler pair is a subtree
of one of the initial candidates and carries its center distance. -/
theorem tree_search_loop_inv (qd : ℕ → U) (r : U) (fuel : ℕ)
    (cands : List (ClusterU U)) :
    (∀ p ∈ (tree_search_loop qd r fuel cands).1,
      (∃ c0 ∈ cands, InTree p.1 c0) ∧ p.2 = qd (argCenterU p.1) ∧
        radiusU p.1 + p.2 ≤ r) ∧
    (∀ p ∈ (tree_search_loop qd r fuel cands).2,
      (∃ c0 ∈ cands, InTree p.1 c0) ∧ p.2 = qd (argCenterU p.1)) := by
  induction fuel generalizing cands with
  | zero => simp [tree_search_loop]
  | succ n ih =>
    cases cands with
    | nil => simp [tree_search_loop]
    | cons c cs =>
      have hnext := ih (rnn_step qd r (c :: cs)).2.2
      constructor
      · intro p hp
        simp only [tree_search_loop, List.mem_append] at hp
        cases hp with
        | inl hp =>
          obtain ⟨h1, h2, h3⟩ := rnn_step_confirmed_mem hp
          exact ⟨⟨p.1, h1, InTree.refl _⟩, h2, h3⟩
        | inr hp =>
          obtain ⟨⟨c0, hc0, hin⟩, h2, h3⟩ := hnext.1 p hp
          obtain ⟨c1, hc1, hch⟩ := rnn_step_next_mem hc0
          exact ⟨⟨c1, hc1, inTree_trans hin (mem_children_inTree hch)⟩, h2, h3⟩
      · intro p hp
        simp only [tree_search_loop, List.mem_append] at hp
        cases hp with
        | inl hp =>
          obtain ⟨h1, h2⟩ := rnn_step_straddler_mem hp
          exact ⟨⟨p.1, h1, InTree.refl _⟩, h2⟩
        | inr hp =>
          obtain ⟨⟨c0, hc0, hin⟩, h2⟩ := hnext.2 p hp
          obtain ⟨c1, hc1, hch⟩ := rnn_step_next_mem hc0
          exact ⟨⟨c1, hc1, inTree_trans hin (mem_children_inTree hch)⟩, h2⟩

/-- Zipping a list with a replicated constant pairs members with the
constant. -/
theorem mem_zip_replicate {α β : Type} {l : List α} {n : ℕ} {x : β} {p : α × β}
    (hp : p ∈ l.zip (List.replicate n x)) : p.1 ∈ l ∧ p.2 = x := by
  induction l generalizing n with
  | nil => simp at hp
  | cons a as ih =>
    cases n with
    | zero => simp [List.zip_nil_right] at hp
    | succ m =>
      simp only [List.replicate_succ, List.zip_cons_cons, List.mem_cons] at hp
      cases hp with
      | inl hp => simp [hp]
      | inr hp =>
        obtain ⟨h1, h2⟩ := ih hp
        exact ⟨List.mem_cons_of_mem a h1, h2⟩

/-- Zipping a list with its image pairs members with their images. -/
theorem zip_map_self {α β : Type} (f : α → β) (l : List α) :
    l.zip (l.map f) = l.map (fun a => (a, f a)) := by
  induction l with
  | nil => rfl
  | cons a as ih => simp [ih]

/-- Membership in the linear range search. -/
theorem mem_linear_search {qd : ℕ → U} {r : U} {indices : List ℕ} {p : ℕ × U} :
    p ∈ linear_search qd r indices ↔ p.1 ∈ indices ∧ p.2 = qd p.1 ∧ p.2 ≤ r := by
  constructor
  · intro hp
    obtain ⟨hp1, h2⟩ := List.mem_filter.mp hp
    obtain ⟨i, hi, hfi⟩ := List.mem_map.mp hp1
    rw [← hfi]
    exact ⟨hi, rfl, by rw [← hfi] at h2; exact of_decide_eq_true h2⟩
  · intro ⟨h1, h2, h3⟩
    refine List.mem_filter.mpr ⟨List.mem_map.mpr ⟨p.1, h1, ?_⟩, decide_eq_true h3⟩
    rw [← h2]

/-- Claim C1, amended: under the triangle inequality and the tree ball
invariant, every pair returned by the clustered RNN search is also
returned by the linear RNN search over the same member set (no false
positives and exact distances); the converse inclusion fails, see the
counterexample. -/
theorem clustered_rnn_subset_linear (qd : ℕ → U) (pd : ℕ → ℕ → U)
    (root : ClusterU U) (r : U)
    (hnn : ∀ i j, 0 ≤ pd i j)
    (htri : ∀ j i, qd i ≤ qd j + pd j i)
    (htri2 : ∀ j i, qd j ≤ qd i + pd j i)
    (hgood : GoodTree pd root) :
    ∀ p ∈ clustered_rnn qd root r, p ∈ linear_search qd r (indicesU root) := by
  intro p hp
  have hinv := tree_search_loop_inv qd r (sizeU root + 1) [root]
  simp only [clustered_rnn, leaf_search, tree_search, List.mem_append] at hp
  cases hp with
  | inl hp =>
    obtain ⟨q, hq, hmem⟩ := List.mem_flatMap.mp hp
    obtain ⟨⟨c0, hc0, hin⟩, hd, hrad⟩ := hinv.1 q hq
    have hroot : c0 = root := by simpa using hc0
    subst hroot
    have hgq : GoodTree pd q.1 := goodTree_of_inTree hgood hin
    have hball := goodTree_ball hgq
    by_cases hsing : isSingletonU q.1 = true
    · rw [if_pos hsing] at hmem
      obtain ⟨h1, h2⟩ := mem_zip_replicate hmem
      have hrad0 : radiusU q.1 = 0 := of_decide_eq_true hsing
      have hpd0 : pd (argCenterU q.1) p.1 = 0 :=
        le_antisymm (hrad0 ▸ hball p.1 h1) (hnn _ _)
      have hqd : qd p.1 = q.2 := by
        have ha := htri (argCenterU q.1) p.1
        have hb := htri2 (argCenterU q.1) p.1
        rw [hpd0, add_zero] at ha hb
        rw [hd]
        exact le_antisymm ha hb
      refine mem_linear_search.mpr ⟨mem_indices_of_inTree hin p.1 h1, ?_, ?_⟩
      · rw [h2]
        exact hqd.symm
      · rw [h2]
        rw [hrad0, zero_add] at hrad
        exact hrad
    · rw [if_neg hsing] at hmem
      rw [zip_map_self] at hmem
      obtain ⟨i, hi, hfi⟩ := List.mem_map.mp hmem
      refine mem_linear_search.mpr ⟨?_, ?_, ?_⟩
      · rw [← hfi]
        exact mem_indices_of_inTree hin i hi
      · rw [← hfi]
      · rw [← hfi]
        show qd i ≤ r
        calc qd i ≤ qd (argCenterU q.1) + pd (argCenterU q.1) i := htri _ _
          _ ≤ qd (argCenterU q.1) + radiusU q.1 := add_le_add_left (hball i hi) _
          _ = radiusU q.1 + q.2 := by rw [hd]; ring
          _ ≤ r := hrad
  | inr hp =>
    obtain ⟨h1, h2, h3⟩ := mem_linear_search.mp hp
    obtain ⟨q, hq, hqi⟩ := List.mem_flatMap.mp h1
    obtain ⟨⟨c0, hc0, hin⟩, _⟩ := hinv.2 q hq
    have hroot : c0 = root := by simpa using hc0
    subst hroot
    exact mem_linear_search.mpr ⟨mem_indices_of_inTree hin p.1 hqi, h2, h3⟩

/-- Witness for `clustered_rnn_subset_linear` on a one-leaf tree with
the zero metric. -/
theorem clustered_rnn_subset_linear_witness :
    GoodTree (fun _ _ => (0 : ℤ)) (ClusterU.leaf 0 0 [0]) ∧
    ∀ p ∈ clustered_rnn (fun _ => (0 : ℤ)) (ClusterU.leaf 0 0 [0]) 0,
      p ∈ linear_search (fun _ => (0 : ℤ)) 0 (indicesU (ClusterU.leaf 0 0 [0])) :=
  ⟨fun _ _ => le_refl 0,
    clustered_rnn_subset_linear (fun _ => (0 : ℤ)) (fun _ _ => (0 : ℤ))
      (ClusterU.leaf 0 0 [0]) 0 (fun _ _ => le_refl 0)
      (fun _ _ => by simp) (fun _ _ => by simp) (fun _ _ => le_refl 0)⟩

/-- Claim C1, counterexample: a valid three-instance metric space (with
the query as fourth point) on which the spec-modelled build produces a
tree satisfying the ball invariant, yet the clustered RNN search at
radius 10 returns nothing while the linear search returns the hit
`(0, 10)`: the Euclidean-style pole pruning of `overlapping_children`
discards the child containing the hit, so the result sets differ. -/
theorem clustered_rnn_counterexample :
    IsMetricOn dist4 4 ∧ GoodTree dist4 treeC ∧
    clustered_rnn qd1 treeC 10 = [] ∧
    linear_search qd1 10 (indicesU treeC) = [(0, 10)] := by
  refine ⟨by decide, by decide, by decide, by decide⟩

end ClamSpec
